import Mathlib

/-!
Verification development for the YouTube subscription transcript summarizer
(`yt_subs_summarizer.py`).  The Python source is shallowly embedded: pure
helpers become Lean functions, the stateful request executor and the main
processing loop become explicit state-passing functions, remote calls are
abstracted as outcome-valued functions, and raised exceptions become explicit
result constructors.  Floats never carry fractional values in the embedded
code paths (backoff delays are 1, 2, 4, ... capped at 30; timestamps are only
compared), so they are modelled as `Nat` / `Int`.
-/

/- ------------------------------------------------------------------
   Resilient call executor: `_should_retry` and `_execute_with_backoff`
   (yt_subs_summarizer.py lines 270-317).

   A remote call is modelled as a function from the attempt number to an
   `Outcome`: the underlying `request.execute()` either returns a response,
   raises an `HttpError` with a status and an optional reason string, or
   raises some other exception.
   ------------------------------------------------------------------ -/

inductive Outcome (α : Type) where
  | success (resp : α)
  | httpError (status : Nat) (reason : Option String)
  | otherError (msg : String)
deriving DecidableEq, Repr

/-- What `_execute_with_backoff` does, observably: it either returns
(`ret none` models Python `return None`, `ret (some r)` a real response)
or re-raises the pending exception. -/
inductive ExecOut (α : Type) where
  | ret (r : Option α)
  | raiseHttp (status : Nat) (reason : Option String)
  | raiseOther (msg : String)
deriving DecidableEq, Repr

/-- Full observable behaviour of one `_execute_with_backoff` call:
the outcome, whether the global `QUOTA_EXHAUSTED` flag is set on exit,
how many times `request.execute()` was invoked, and the sequence of
`time.sleep` delays performed (in order). -/
structure ExecResult (α : Type) where
  outcome : ExecOut α
  quotaSet : Bool
  calls : Nat
  sleeps : List Nat
deriving DecidableEq, Repr

/-- Line 271: `_should_retry(status, reason)`. -/
def should_retry (status : Nat) (reason : Option String) : Bool :=
  [500, 502, 503, 504, 429].contains status ||
    (status == 403 &&
      [some "rateLimitExceeded", some "userRateLimitExceeded",
        some "quotaExceeded"].contains reason)

/-- The reason tuple of the skip branch at lines 294-300. -/
def skipReasons : List String :=
  ["playlistNotFound", "playlistItemsNotAccessible", "forbidden",
    "channelClosed", "channelSuspended", "channelDisabled"]

def reasonInSkipList : Option String → Bool
  | some s => skipReasons.contains s
  | none => false

/-- The retry loop of `_execute_with_backoff` (lines 282-317).
`remaining` is the number of loop iterations left (Python runs
`for attempt in range(1, max_attempts + 1)`); `attempt` is the current
1-based attempt number; `delay` the current backoff delay.
`isPlaylistItems` models `what.startswith("playlistItems.list:")`.
Falling off the end of the loop is Python's final `return None`. -/
def execLoop {α : Type} (isPlaylistItems : Bool) (call : Nat → Outcome α) :
    Nat → Nat → Nat → ExecResult α
  | 0, _, _ => ⟨.ret none, false, 0, []⟩
  | remaining + 1, attempt, delay =>
    match call attempt with
    | .success v => ⟨.ret (some v), false, 1, []⟩
    | .httpError status reason =>
      if status == 403 && reason == some "quotaExceeded" then
        ⟨.ret none, true, 1, []⟩
      else if (status == 403 || status == 404) &&
          (reasonInSkipList reason || isPlaylistItems) then
        ⟨.ret none, false, 1, []⟩
      else if !should_retry status reason then
        ⟨.raiseHttp status reason, false, 1, []⟩
      else
        let r := execLoop isPlaylistItems call remaining (attempt + 1)
          (min (delay * 2) 30)
        ⟨r.outcome, r.quotaSet, r.calls + 1, delay :: r.sleeps⟩
    | .otherError msg =>
      if attempt ≥ 3 then ⟨.raiseOther msg, false, 1, []⟩
      else
        let r := execLoop isPlaylistItems call remaining (attempt + 1)
          (min (delay * 2) 30)
        ⟨r.outcome, r.quotaSet, r.calls + 1, delay :: r.sleeps⟩

/-- `_execute_with_backoff(request, what, max_attempts)` (lines 273-317).
`quota` is the value of the global `QUOTA_EXHAUSTED` flag on entry. -/
def execute_with_backoff {α : Type} (quota : Bool) (isPlaylistItems : Bool)
    (call : Nat → Outcome α) (max_attempts : Nat) : ExecResult α :=
  if quota then ⟨.ret none, true, 0, []⟩
  else
    let r := execLoop isPlaylistItems call max_attempts 1 1
    ⟨r.outcome, r.quotaSet, r.calls, r.sleeps⟩

/-- An HTTP outcome that the executor actually classifies as retry-and-sleep:
retryable per `_should_retry`, not the quota-exceeded branch, and not the
not-found/forbidden/per-item-listing skip branch (those two return `None`
first and take precedence in the source). -/
def retriedHttp {α : Type} (isPlaylistItems : Bool) : Outcome α → Bool
  | .httpError status reason =>
    !(status == 403 && reason == some "quotaExceeded") &&
      !((status == 403 || status == 404) &&
        (reasonInSkipList reason || isPlaylistItems)) &&
      should_retry status reason
  | .success _ => false
  | .otherError _ => false

/-- Claim C1: if the remote call fails with HTTP 403 and reason
"quotaExceeded", the executor sets the process-wide quota latch and returns
`None` immediately after that single call, without retrying; and any call
issued while the latch is already set returns `None` having performed zero
underlying remote calls. -/
theorem C1_quota_latch {α : Type} (isPl : Bool) (call : Nat → Outcome α)
    (maxA : Nat) (hmax : 1 ≤ maxA)
    (hcall : call 1 = .httpError 403 (some "quotaExceeded")) :
    execute_with_backoff false isPl call maxA = ⟨.ret none, true, 1, []⟩ ∧
    ∀ (isPl2 : Bool) (call2 : Nat → Outcome α) (maxA2 : Nat),
      execute_with_backoff true isPl2 call2 maxA2 = ⟨.ret none, true, 0, []⟩ := by
  constructor
  · match maxA, hmax with
    | k + 1, _ => simp [execute_with_backoff, execLoop, hcall]
  · intro isPl2 call2 maxA2
    simp [execute_with_backoff]

theorem C1_quota_latch_witness :
    execute_with_backoff false false
        (fun _ => Outcome.httpError (α := Nat) 403 (some "quotaExceeded")) 5 =
      ⟨ExecOut.ret none, true, 1, []⟩ ∧
    ∀ (isPl2 : Bool) (call2 : Nat → Outcome Nat) (maxA2 : Nat),
      execute_with_backoff true isPl2 call2 maxA2 = ⟨ExecOut.ret none, true, 0, []⟩ :=
  C1_quota_latch false (fun _ => Outcome.httpError 403 (some "quotaExceeded")) 5
    (by decide) rfl

theorem doubling_cap (delay i : Nat) :
    min (min (delay * 2) 30 * 2 ^ i) 30 = min (delay * 2 ^ (i + 1)) 30 := by
  have hpow : 1 ≤ 2 ^ i := Nat.one_le_two_pow
  rcases Nat.le_total (delay * 2) 30 with h | h
  · rw [Nat.min_eq_left h]
    congr 1
    rw [pow_succ]
    ring
  · have h30 : (30 : Nat) ≤ 30 * 2 ^ i := by
      calc (30 : Nat) = 30 * 1 := by ring
        _ ≤ 30 * 2 ^ i := Nat.mul_le_mul_left 30 hpow
    have hd : (30 : Nat) ≤ delay * 2 ^ (i + 1) := by
      calc (30 : Nat) ≤ 30 * 2 ^ i := h30
        _ ≤ delay * 2 * 2 ^ i := Nat.mul_le_mul_right _ h
        _ = delay * 2 ^ (i + 1) := by rw [pow_succ]; ring
    rw [Nat.min_eq_right h, Nat.min_eq_right h30, Nat.min_eq_right hd]

theorem sleepSchedule_step (delay r : Nat) (hd : delay ≤ 30) :
    (List.range (r + 1)).map (fun i => min (delay * 2 ^ i) 30) =
      delay :: (List.range r).map (fun i => min (min (delay * 2) 30 * 2 ^ i) 30) := by
  rw [List.range_succ_eq_map, List.map_cons, List.map_map]
  have hfun : ((fun i => min (delay * 2 ^ i) 30) ∘ Nat.succ) =
      (fun i => min (min (delay * 2) 30 * 2 ^ i) 30) := by
    funext i
    simpa using (doubling_cap delay i).symm
  rw [hfun]
  simp [Nat.min_eq_left hd]

theorem execLoop_all_retry {α : Type} (isPl : Bool) (call : Nat → Outcome α)
    (h : ∀ k, retriedHttp isPl (call k) = true) :
    ∀ (remaining attempt delay : Nat), delay ≤ 30 →
      execLoop isPl call remaining attempt delay =
        ⟨.ret none, false, remaining,
          (List.range remaining).map (fun i => min (delay * 2 ^ i) 30)⟩ := by
  intro remaining
  induction remaining with
  | zero => intro attempt delay _; simp [execLoop]
  | succ r ih =>
    intro attempt delay hd
    have hr := h attempt
    cases hc : call attempt with
    | success v => rw [hc] at hr; simp [retriedHttp] at hr
    | httpError st rs =>
      rw [hc] at hr
      simp only [retriedHttp, Bool.and_eq_true, Bool.not_eq_true'] at hr
      obtain ⟨⟨h1, h2⟩, h3⟩ := hr
      have hrec := ih (attempt + 1) (min (delay * 2) 30) (Nat.min_le_right _ _)
      simp only [execLoop, hc, h1, h2, h3, Bool.false_eq_true, if_false,
        Bool.not_true, hrec]
      rw [sleepSchedule_step delay r hd]
    | otherError m => rw [hc] at hr; simp [retriedHttp] at hr

/-- Claim C2 counterexample: a call that fails with a retryable HTTP 503 on
every attempt, with `max_attempts = 2`, is attempted exactly 2 times and then
RETURNS `None` normally (the loop at lines 282-309 falls through to the final
`return None` at line 317) — it does not re-raise the last error as the claim
states. -/
theorem C2_returns_null_counterexample :
    execute_with_backoff false false
        (fun _ => Outcome.httpError (α := Nat) 503 none) 2 =
      ⟨ExecOut.ret none, false, 2, [1, 2]⟩ ∧
    (execute_with_backoff false false
        (fun _ => Outcome.httpError (α := Nat) 503 none) 2).outcome ≠
      ExecOut.raiseHttp 503 none := by
  exact ⟨by decide, by decide⟩

/-- Claim C2 (amended): for every call made through the request executor with
attempt budget `max_attempts`, if the remote call fails on every attempt with
a classification the executor retries (HTTP 500/502/503/504/429 always; 403
with a rate-limit reason only when it is neither the quota-exceeded branch
nor the not-found/forbidden/per-item-listing skip branch), the call is
attempted exactly `max_attempts` times with delays starting at 1, doubling
after each failure and capped at 30, and after the last attempt the executor
returns `None` rather than re-raising the last error. -/
theorem C2_backoff_schedule {α : Type} (isPl : Bool) (call : Nat → Outcome α)
    (maxA : Nat) (h : ∀ k, retriedHttp isPl (call k) = true) :
    execute_with_backoff false isPl call maxA =
      ⟨.ret none, false, maxA, (List.range maxA).map (fun i => min (2 ^ i) 30)⟩ := by
  have h2 : execLoop isPl call maxA 1 1 =
      ⟨.ret none, false, maxA,
        (List.range maxA).map (fun i => min (1 * 2 ^ i) 30)⟩ :=
    execLoop_all_retry isPl call h maxA 1 1 (by norm_num)
  simp [execute_with_backoff, h2, one_mul]

theorem C2_backoff_schedule_witness :
    execute_with_backoff false false
        (fun _ => Outcome.httpError (α := Nat) 503 none) 7 =
      ⟨ExecOut.ret none, false, 7, [1, 2, 4, 8, 16, 30, 30]⟩ := by
  have h := C2_backoff_schedule false
      (fun _ => Outcome.httpError (α := Nat) 503 none) 7 (fun _ => rfl)
  rw [h]
  decide

/- ------------------------------------------------------------------
   Duration parsing and the Shorts exclusion filter
   (`_parse_iso8601_duration_to_seconds`, lines 359-371, and
   `exclude_shorts`, lines 387-445).

   A video dict is modelled by the fields the filter consumes:
   `videoId`, and `duration_seconds` as an `Option Int` (`none` models the
   key being absent from the dict).  The `videos.list` batch response is
   modelled as a list of items carrying `id` and the optional
   `contentDetails.duration` string; the whole call per 50-id chunk is
   `api : Nat → Option (List RespItem)` (chunk index `k` covers slice
   `[50*k, 50*k+50)`), `none` modelling a failed `_execute_with_backoff`
   (e.g. quota exhausted).
   ------------------------------------------------------------------ -/

structure Video where
  videoId : String
  duration_seconds : Option Int
deriving DecidableEq, Repr

structure RespItem where
  id : String
  duration : Option String
deriving DecidableEq, Repr

/-- `int(num or 0)` over the accumulated digit characters. -/
def parseDigits (num : List Char) : Nat :=
  num.foldl (fun acc c => acc * 10 + (c.toNat - 48)) 0

/-- The character loop of `_parse_iso8601_duration_to_seconds`
(lines 363-371).  Non-digit characters other than H/M/S neither consume
nor reset the digit accumulator, exactly as in the source. -/
def durationLoop : List Char → Nat → Nat → Nat → List Char → Nat
  | [], h, m, sec, _ => h * 3600 + m * 60 + sec
  | c :: rest, h, m, sec, num =>
    if c.isDigit then durationLoop rest h m sec (num ++ [c])
    else if c = 'H' then durationLoop rest (parseDigits num) m sec []
    else if c = 'M' then durationLoop rest h (parseDigits num) sec []
    else if c = 'S' then durationLoop rest h m (parseDigits num) []
    else durationLoop rest h m sec num

/-- Python's `s.startswith("PT")`, on the character list (an empty string
never starts with "PT", so the separate `not s` guard of line 360 is
subsumed). -/
def startsWithPT (s : String) : Bool :=
  match s.toList with
  | 'P' :: 'T' :: _ => true
  | _ => false

/-- `_parse_iso8601_duration_to_seconds(s)` (lines 359-371): strings not
starting with "PT" (including the empty string) yield 0, otherwise the
character loop runs on `s[2:]`. -/
def parse_iso8601_duration_to_seconds (s : String) : Nat :=
  if !startsWithPT s then 0
  else durationLoop (s.toList.drop 2) 0 0 0 []

/-- `details.get(v["videoId"], {}).get("duration")` at line 429, where
`details` is built with last-occurrence-wins dict semantics (line 427). -/
def lookupDuration (items : List RespItem) (vid : String) : Option String :=
  match items.reverse.find? (fun it => it.id == vid) with
  | none => none
  | some it => it.duration

/-- Python's `dur or "PT0S"` (line 430): `None` and the empty string are
both falsy. -/
def pyOrDefault (dur : Option String) (dflt : String) : String :=
  match dur with
  | none => dflt
  | some s => if s = "" then dflt else s

/-- The first pass of `exclude_shorts` (lines 402-414): videos that already
carry `duration_seconds` are kept exactly when it is strictly greater than
`max_seconds`. -/
def firstPassKept (max_seconds : Int) (videos : List Video) : List Video :=
  videos.filter (fun v =>
    match v.duration_seconds with
    | some secs => decide (max_seconds < secs)
    | none => false)

/-- Videos lacking `duration_seconds`, queued for the batch lookup
(lines 413-414). -/
def videosNeedingDuration (videos : List Video) : List Video :=
  videos.filter (fun v => v.duration_seconds = none)

/-- The per-video decision inside a successful chunk response
(lines 428-437): resolve the duration string, store the parsed seconds on
the video, and keep it exactly when strictly greater than `max_seconds`. -/
def keepDecision (items : List RespItem) (max_seconds : Int) (v : Video) :
    Option Video :=
  let dur := lookupDuration items v.videoId
  let secs : Int := parse_iso8601_duration_to_seconds (pyOrDefault dur "PT0S")
  if max_seconds < secs then some { v with duration_seconds := some secs }
  else none

/-- The second pass of `exclude_shorts` (lines 418-443): process the
needing-duration videos in chunks of 50; a failed chunk call keeps the whole
chunk conservatively. -/
def processChunks (api : Nat → Option (List RespItem)) (max_seconds : Int) :
    List Video → Nat → List Video
  | [], _ => []
  | v :: rest, k =>
    (match api k with
      | some items => ((v :: rest).take 50).filterMap (keepDecision items max_seconds)
      | none => (v :: rest).take 50)
      ++ processChunks api max_seconds ((v :: rest).drop 50) (k + 1)
termination_by vs _ => vs.length
decreasing_by simp [List.length_drop]; omega

/-- `exclude_shorts(youtube, videos, max_seconds, ...)` (lines 387-445),
returning the kept list. -/
def exclude_shorts (api : Nat → Option (List RespItem)) (videos : List Video)
    (max_seconds : Int) : List Video :=
  if videos = [] then videos
  else firstPassKept max_seconds videos ++
    processChunks api max_seconds (videosNeedingDuration videos) 0

/-- The seconds value the second pass of `exclude_shorts` resolves for a
video from a successful chunk response (line 430). -/
def resolvedSecs (items : List RespItem) (v : Video) : Int :=
  (parse_iso8601_duration_to_seconds
    (pyOrDefault (lookupDuration items v.videoId) "PT0S") : Int)

theorem keepDecision_eq_some (items : List RespItem) (T : Int) (u w : Video) :
    keepDecision items T u = some w ↔
      T < resolvedSecs items u ∧
        w = { u with duration_seconds := some (resolvedSecs items u) } := by
  rw [keepDecision, resolvedSecs]
  split
  · simp only [Option.some_inj]
    constructor
    · intro h; exact ⟨by assumption, h.symm⟩
    · intro h; exact h.2.symm
  · simp only [reduceCtorEq, false_iff, not_and]
    intro h; omega

theorem processChunks_inv (api : Nat → Option (List RespItem)) (T : Int) :
    ∀ (n : Nat) (vs : List Video) (k : Nat), vs.length ≤ n →
      (∀ v ∈ vs, v.duration_seconds = none) →
      ∀ w ∈ processChunks api T vs k,
        (w ∈ vs ∧ w.duration_seconds = none) ∨
          ∃ s, w.duration_seconds = some s ∧ T < s := by
  intro n
  induction n with
  | zero =>
    intro vs k hlen hall w hw
    match vs with
    | [] => simp [processChunks] at hw
  | succ n ih =>
    intro vs k hlen hall w hw
    match vs with
    | [] => simp [processChunks] at hw
    | v :: rest =>
      rw [processChunks] at hw
      rcases List.mem_append.1 hw with h1 | h2
      · cases hak : api k with
        | none =>
          rw [hak] at h1
          exact Or.inl ⟨List.mem_of_mem_take h1,
            hall w (List.mem_of_mem_take h1)⟩
        | some items =>
          rw [hak] at h1
          obtain ⟨u, _, hkeep⟩ := List.mem_filterMap.1 h1
          obtain ⟨hlt, rfl⟩ := (keepDecision_eq_some items T u w).1 hkeep
          exact Or.inr ⟨_, rfl, hlt⟩
      · have hlen2 : ((v :: rest).drop 50).length ≤ n := by
          simp only [List.length_drop, List.length_cons] at hlen ⊢
          omega
        have hall2 : ∀ u ∈ (v :: rest).drop 50, u.duration_seconds = none :=
          fun u hu => hall u (List.mem_of_mem_drop hu)
        rcases ih _ (k + 1) hlen2 hall2 w h2 with ⟨hm, hd⟩ | hr
        · exact Or.inl ⟨List.mem_of_mem_drop hm, hd⟩
        · exact Or.inr hr

theorem processChunks_api_none (api : Nat → Option (List RespItem)) (T : Int)
    (hnone : ∀ k, api k = none) :
    ∀ (n : Nat) (vs : List Video) (k : Nat), vs.length ≤ n →
      processChunks api T vs k = vs := by
  intro n
  induction n with
  | zero =>
    intro vs k hlen
    match vs with
    | [] => simp [processChunks]
  | succ n ih =>
    intro vs k hlen
    match vs with
    | [] => simp [processChunks]
    | v :: rest =>
      rw [processChunks, hnone k]
      have hlen2 : ((v :: rest).drop 50).length ≤ n := by
        simp only [List.length_drop, List.length_cons] at hlen ⊢
        omega
      rw [ih _ (k + 1) hlen2]
      exact List.take_append_drop 50 (v :: rest)

theorem processChunks_api_some_mem (api : Nat → Option (List RespItem))
    (T : Int) (items : List RespItem) (hsome : ∀ k, api k = some items) :
    ∀ (n : Nat) (vs : List Video) (k : Nat), vs.length ≤ n →
      ∀ v ∈ vs, ∀ w, keepDecision items T v = some w →
        w ∈ processChunks api T vs k := by
  intro n
  induction n with
  | zero =>
    intro vs k hlen v hv w hkeep
    match vs with
    | [] => simp at hv
  | succ n ih =>
    intro vs k hlen v hv w hkeep
    match vs with
    | [] => simp at hv
    | x :: rest =>
      rw [processChunks, hsome k]
      rw [← List.take_append_drop 50 (x :: rest)] at hv
      rcases List.mem_append.1 hv with h1 | h2
      · exact List.mem_append_left _ (List.mem_filterMap.2 ⟨v, h1, hkeep⟩)
      · have hlen2 : ((x :: rest).drop 50).length ≤ n := by
          simp only [List.length_drop, List.length_cons] at hlen ⊢
          omega
        exact List.mem_append_right _ (ih _ (k + 1) hlen2 v h2 w hkeep)

theorem processChunks_indexed (api : Nat → Option (List RespItem)) (T : Int) :
    ∀ (n : Nat) (vs : List Video) (k i : Nat) (v : Video), vs.length ≤ n →
      vs[i]? = some v →
      ((api (k + i / 50) = none → v ∈ processChunks api T vs k) ∧
       (∀ items, api (k + i / 50) = some items →
         ∀ w, keepDecision items T v = some w →
           w ∈ processChunks api T vs k)) := by
  intro n
  induction n with
  | zero =>
    intro vs k i v hlen hget
    match vs with
    | [] => simp at hget
  | succ n ih =>
    intro vs k i v hlen hget
    match vs with
    | [] => simp at hget
    | x :: rest =>
      by_cases hi : i < 50
      · have hdiv : k + i / 50 = k := by omega
        have hmem : v ∈ (x :: rest).take 50 := by
          have ht : ((x :: rest).take 50)[i]? = some v := by
            rw [List.getElem?_take, if_pos hi]
            exact hget
          exact List.getElem?_mem ht
        rw [hdiv]
        constructor
        · intro hnone
          rw [processChunks, hnone]
          exact List.mem_append_left _ hmem
        · intro items hsome w hkeep
          rw [processChunks, hsome]
          exact List.mem_append_left _ (List.mem_filterMap.2 ⟨v, hmem, hkeep⟩)
      · push_neg at hi
        have hget2 : ((x :: rest).drop 50)[i - 50]? = some v := by
          rw [List.getElem?_drop]
          rw [show 50 + (i - 50) = i from by omega]
          exact hget
        have hlen2 : ((x :: rest).drop 50).length ≤ n := by
          simp only [List.length_drop, List.length_cons] at hlen ⊢
          omega
        have hrec := ih ((x :: rest).drop 50) (k + 1) (i - 50) v hlen2 hget2
        rw [show k + 1 + (i - 50) / 50 = k + i / 50 from by omega] at hrec
        constructor
        · intro hnone
          rw [processChunks]
          exact List.mem_append_right _ (hrec.1 hnone)
        · intro items hsome w hkeep
          rw [processChunks]
          exact List.mem_append_right _ (hrec.2 items hsome w hkeep)

/-- Claim C3: for every candidate list and threshold, the Shorts-exclusion
stage keeps every item whose known duration is strictly greater than the
threshold (conjunct 1) and never returns any item carrying a duration less
than or equal to the threshold (conjunct 2, which also covers the
batch-resolved durations); the items submitted to the batch lookup are
exactly the candidates whose duration is missing (conjunct 3); and each
such item is governed solely by its own 50-id chunk's response, whatever
the other chunks return (conjunct 4): if the lookup call for its chunk
fails — e.g. quota exhausted mid-lookup — the item is kept as is, never
dropped, and if that call succeeds the item is kept, with its resolved
duration stored, exactly when the resolved duration is strictly greater
than the threshold (per `keepDecision`). -/
theorem C3_duration_filter (api : Nat → Option (List RespItem))
    (videos : List Video) (T : Int) :
    (∀ v ∈ videos, ∀ s, v.duration_seconds = some s → T < s →
        v ∈ exclude_shorts api videos T) ∧
    (∀ (w : Video) (s : Int), w.duration_seconds = some s → s ≤ T →
        w ∉ exclude_shorts api videos T) ∧
    (∀ v, v ∈ videosNeedingDuration videos ↔
        (v ∈ videos ∧ v.duration_seconds = none)) ∧
    (∀ (i : Nat) (v : Video), (videosNeedingDuration videos)[i]? = some v →
      (api (i / 50) = none → v ∈ exclude_shorts api videos T) ∧
      (∀ items, api (i / 50) = some items →
        ∀ w, keepDecision items T v = some w →
          w ∈ exclude_shorts api videos T)) := by
  refine ⟨?_, ?_, ?_, ?_⟩
  · intro v hv s hs hlt
    have hne : videos ≠ [] := by rintro rfl; simp at hv
    rw [exclude_shorts, if_neg hne]
    apply List.mem_append_left
    apply List.mem_filter.2
    refine ⟨hv, ?_⟩
    rw [hs]
    simpa using hlt
  · intro w s hs hle hmem
    by_cases hne : videos = []
    · subst hne; rw [exclude_shorts] at hmem; simp at hmem
    · rw [exclude_shorts, if_neg hne] at hmem
      rcases List.mem_append.1 hmem with h1 | h2
      · have := (List.mem_filter.1 h1).2
        rw [hs] at this
        simp at this
        omega
      · have hall : ∀ v ∈ videosNeedingDuration videos,
            v.duration_seconds = none := by
          intro v hv
          have := (List.mem_filter.1 hv).2
          simpa using this
        rcases processChunks_inv api T (videosNeedingDuration videos).length
            (videosNeedingDuration videos) 0 le_rfl hall w h2 with ⟨_, hd⟩ | ⟨s', hd, hlt⟩
        · rw [hs] at hd; exact absurd hd (by simp)
        · rw [hs] at hd
          have : s = s' := by injection hd
          omega
  · intro v
    rw [videosNeedingDuration, List.mem_filter]
    simp
  · intro i v hget
    have hvmem : v ∈ videosNeedingDuration videos := List.getElem?_mem hget
    have hne : videos ≠ [] := by
      rintro rfl
      simp [videosNeedingDuration] at hvmem
    have hidx := processChunks_indexed api T
      (videosNeedingDuration videos).length (videosNeedingDuration videos)
      0 i v le_rfl hget
    rw [Nat.zero_add] at hidx
    constructor
    · intro hnone
      rw [exclude_shorts, if_neg hne]
      exact List.mem_append_right _ (hidx.1 hnone)
    · intro items hsome w hkeep
      rw [exclude_shorts, if_neg hne]
      exact List.mem_append_right _ (hidx.2 items hsome w hkeep)

theorem C3_duration_filter_witness :
    Video.mk "keep" (some 61) ∈
      exclude_shorts
        (fun k => if k = 0 then some [RespItem.mk "a" (some "PT5M")] else none)
        (Video.mk "keep" (some 61) :: Video.mk "drop" (some 60) ::
          List.replicate 50 (Video.mk "a" none) ++ [Video.mk "b" none]) 60 ∧
    Video.mk "drop" (some 60) ∉
      exclude_shorts
        (fun k => if k = 0 then some [RespItem.mk "a" (some "PT5M")] else none)
        (Video.mk "keep" (some 61) :: Video.mk "drop" (some 60) ::
          List.replicate 50 (Video.mk "a" none) ++ [Video.mk "b" none]) 60 ∧
    Video.mk "a" (some 300) ∈
      exclude_shorts
        (fun k => if k = 0 then some [RespItem.mk "a" (some "PT5M")] else none)
        (Video.mk "keep" (some 61) :: Video.mk "drop" (some 60) ::
          List.replicate 50 (Video.mk "a" none) ++ [Video.mk "b" none]) 60 ∧
    Video.mk "b" none ∈
      exclude_shorts
        (fun k => if k = 0 then some [RespItem.mk "a" (some "PT5M")] else none)
        (Video.mk "keep" (some 61) :: Video.mk "drop" (some 60) ::
          List.replicate 50 (Video.mk "a" none) ++ [Video.mk "b" none]) 60 := by
  obtain ⟨h1, h2, _, h4⟩ := C3_duration_filter
    (fun k => if k = 0 then some [RespItem.mk "a" (some "PT5M")] else none)
    (Video.mk "keep" (some 61) :: Video.mk "drop" (some 60) ::
      List.replicate 50 (Video.mk "a" none) ++ [Video.mk "b" none]) 60
  refine ⟨h1 _ (by decide) 61 rfl (by norm_num),
    h2 _ 60 rfl (by norm_num), ?_, ?_⟩
  · exact (h4 0 (Video.mk "a" none) (by decide)).2
      [RespItem.mk "a" (some "PT5M")] (by decide)
      (Video.mk "a" (some 300)) (by decide)
  · exact (h4 50 (Video.mk "b" none) (by decide)).1 (by decide)

/-- Claim C10: the ISO-8601 duration parser returns 0 for every string that
does not start with "PT" (including the empty string); and in the
Shorts-exclusion second pass, a video present in a successful durations
response whose looked-up duration field is absent resolves to 0 seconds
(via the `"PT0S"` default) and is dropped whenever the threshold is
non-negative. -/
theorem C10_parser_default (items : List RespItem) (T : Int) (v : Video)
    (hlook : lookupDuration items v.videoId = none) (hT : 0 ≤ T) :
    (∀ s : String, startsWithPT s = false →
        parse_iso8601_duration_to_seconds s = 0) ∧
    resolvedSecs items v = 0 ∧
    keepDecision items T v = none := by
  refine ⟨?_, ?_, ?_⟩
  · intro s hs
    rw [parse_iso8601_duration_to_seconds, hs]
    rfl
  · rw [resolvedSecs, hlook]
    decide
  · rw [keepDecision, hlook]
    have : (parse_iso8601_duration_to_seconds (pyOrDefault none "PT0S") : Int) = 0 := by
      decide
    rw [this, if_neg (by omega)]

theorem C10_parser_default_witness :
    parse_iso8601_duration_to_seconds "3M20S" = 0 ∧
    parse_iso8601_duration_to_seconds "" = 0 ∧
    resolvedSecs [RespItem.mk "a" none] (Video.mk "a" none) = 0 ∧
    keepDecision [RespItem.mk "a" none] 180 (Video.mk "a" none) = none := by
  obtain ⟨h1, h2, h3⟩ := C10_parser_default [RespItem.mk "a" none] 180
    (Video.mk "a" none) (by decide) (by norm_num)
  exact ⟨h1 "3M20S" (by decide), h1 "" (by decide), h2, h3⟩

/- ------------------------------------------------------------------
   Durable state store: `load_state` (lines 144-178) and `save_state`
   (lines 180-200).

   The JSON state file is modelled by its three used fields; a Python dict
   is a key-ordered association list with unique keys (uniqueness is a
   hypothesis where a proof needs it).  `time.time()` values are only ever
   compared and multiplied by constants, so timestamps are `Int`.
   Parsing/IO failure is `none` (the `except` branch at line 177).
   ------------------------------------------------------------------ -/

structure StateFile where
  processed_timestamps : List (String × Int)
  processed_video_ids : List String
  video_errors : List (String × String)
deriving DecidableEq, Repr

/-- `vid in d` for a dict `d` keyed by strings. -/
def keysContain {β : Type} (l : List (String × β)) (vid : String) : Bool :=
  l.any (fun p => p.1 == vid)

/-- The migration loop at lines 163-165 (and the identical backfill loop at
lines 191-193): stamp every id missing from the timestamp dict with `now`,
in iteration order (dict insertion appends). -/
def stampMissing (pt : List (String × Int)) (ids : List String) (now : Int) :
    List (String × Int) :=
  ids.foldl
    (fun acc vid => if keysContain acc vid then acc else acc ++ [(vid, now)]) pt

/-- `load_state(path, max_age_days)` (lines 144-178), as a function of the
parsed file content (`none` = unreadable/malformed) and of the load-time
clock `now`.  Returns `(processed_ids, video_errors, processed_timestamps)`,
the id set represented by the key list of the pruned timestamp dict. -/
def load_state (data : Option StateFile) (now : Int) (max_age_days : Int) :
    List String × List (String × String) × List (String × Int) :=
  match data with
  | none => ([], [], [])
  | some d =>
    let pt := stampMissing d.processed_timestamps d.processed_video_ids now
    let cutoff := now - max_age_days * 86400
    let pt2 := pt.filter (fun p => decide (cutoff < p.2))
    (pt2.map Prod.fst, d.video_errors, pt2)

/-- `save_state(path, processed_ids, video_errors, processed_timestamps)`
(lines 180-200): backfill a `now` timestamp for every live id lacking one,
then write the two-field file (the legacy `processed_video_ids` field is
not written). -/
def save_state (processed_ids : List String)
    (video_errors : List (String × String))
    (processed_timestamps : List (String × Int)) (now : Int) : StateFile :=
  { processed_timestamps := stampMissing processed_timestamps processed_ids now,
    processed_video_ids := [],
    video_errors := video_errors }

theorem keysContain_iff {β : Type} (l : List (String × β)) (vid : String) :
    keysContain l vid = true ↔ ∃ b, (vid, b) ∈ l := by
  rw [keysContain, List.any_eq_true]
  constructor
  · rintro ⟨⟨a, b⟩, hm, he⟩
    simp only [beq_iff_eq] at he
    subst he
    exact ⟨b, hm⟩
  · rintro ⟨b, hm⟩
    exact ⟨(vid, b), hm, by simp⟩

theorem stampMissing_append (ids : List String) :
    ∀ (pt : List (String × Int)) (now : Int),
      ∃ rest, stampMissing pt ids now = pt ++ rest ∧
        ∀ p ∈ rest, p.1 ∈ ids ∧ p.2 = now ∧ keysContain pt p.1 = false := by
  induction ids with
  | nil =>
    intro pt now
    exact ⟨[], by simp [stampMissing], by simp⟩
  | cons vid ids ih =>
    intro pt now
    by_cases h : keysContain pt vid = true
    · obtain ⟨rest, heq, hp⟩ := ih pt now
      refine ⟨rest, ?_, ?_⟩
      · rw [stampMissing, List.foldl_cons, if_pos h]
        exact heq
      · intro p hp2
        obtain ⟨h1, h2, h3⟩ := hp p hp2
        exact ⟨List.mem_cons_of_mem _ h1, h2, h3⟩
    · rw [Bool.not_eq_true] at h
      obtain ⟨rest, heq, hp⟩ := ih (pt ++ [(vid, now)]) now
      refine ⟨(vid, now) :: rest, ?_, ?_⟩
      · rw [stampMissing, List.foldl_cons, if_neg (by simp [h])]
        rw [stampMissing] at heq
        rw [heq, List.append_assoc]
        rfl
      · intro p hp2
        rcases List.mem_cons.1 hp2 with rfl | hp3
        · exact ⟨List.mem_cons_self _ _, rfl, h⟩
        · obtain ⟨h1, h2, h3⟩ := hp p hp3
          refine ⟨List.mem_cons_of_mem _ h1, h2, ?_⟩
          rw [keysContain, List.any_append] at h3
          exact (Bool.or_eq_false_iff.1 h3).1

theorem keysContain_stampMissing (ids : List String) :
    ∀ (pt : List (String × Int)) (now : Int) (v : String),
      keysContain (stampMissing pt ids now) v = true ↔
        keysContain pt v = true ∨ v ∈ ids := by
  induction ids with
  | nil => intro pt now v; simp [stampMissing]
  | cons vid ids ih =>
    intro pt now v
    by_cases h : keysContain pt vid = true
    · rw [stampMissing, List.foldl_cons, if_pos h]
      rw [show List.foldl _ pt ids = stampMissing pt ids now from rfl, ih]
      constructor
      · rintro (hk | hi)
        · exact Or.inl hk
        · exact Or.inr (List.mem_cons_of_mem _ hi)
      · rintro (hk | hi)
        · exact Or.inl hk
        · rcases List.mem_cons.1 hi with rfl | hi2
          · exact Or.inl h
          · exact Or.inr hi2
    · rw [Bool.not_eq_true] at h
      rw [stampMissing, List.foldl_cons, if_neg (by simp [h])]
      rw [show List.foldl _ (pt ++ [(vid, now)]) ids =
        stampMissing (pt ++ [(vid, now)]) ids now from rfl, ih]
      rw [keysContain, List.any_append]
      simp only [Bool.or_eq_true, keysContain]
      constructor
      · rintro ((hk | hv) | hi)
        · exact Or.inl hk
        · simp only [List.any_eq_true] at hv
          obtain ⟨p, hp, he⟩ := hv
          simp only [List.mem_singleton] at hp
          subst hp
          simp only [beq_iff_eq] at he
          exact Or.inr (by simp [he])
        · exact Or.inr (List.mem_cons_of_mem _ hi)
      · rintro (hk | hi)
        · exact Or.inl (Or.inl hk)
        · rcases List.mem_cons.1 hi with rfl | hi2
          · exact Or.inl (Or.inr (by simp))
          · exact Or.inr hi2

theorem keysContain_of_mem_keys {β : Type} (l : List (String × β))
    (a : String) (h : a ∈ l.map Prod.fst) : keysContain l a = true := by
  obtain ⟨p, hm, he⟩ := List.mem_map.1 h
  refine (keysContain_iff l a).2 ⟨p.2, ?_⟩
  obtain ⟨x, y⟩ := p
  cases he
  exact hm

theorem mem_stampMissing (pt : List (String × Int)) (ids : List String)
    (now : Int) (v : String) (ts : Int) :
    (v, ts) ∈ stampMissing pt ids now ↔
      (v, ts) ∈ pt ∨ (ts = now ∧ v ∈ ids ∧ keysContain pt v = false) := by
  obtain ⟨rest, heq, hp⟩ := stampMissing_append ids pt now
  constructor
  · intro h
    rw [heq] at h
    rcases List.mem_append.1 h with h1 | h2
    · exact Or.inl h1
    · obtain ⟨h3, h4, h5⟩ := hp _ h2
      exact Or.inr ⟨h4, h3, h5⟩
  · rintro (h | ⟨hts, hid, hkc⟩)
    · rw [heq]; exact List.mem_append_left _ h
    · have hk : keysContain (stampMissing pt ids now) v = true :=
        (keysContain_stampMissing ids pt now v).2 (Or.inr hid)
      obtain ⟨b, hb⟩ := (keysContain_iff _ _).1 hk
      rw [heq] at hb
      rcases List.mem_append.1 hb with h1 | h2
      · exact absurd ((keysContain_iff _ _).2 ⟨b, h1⟩) (by simp [hkc])
      · obtain ⟨_, h4, _⟩ := hp _ h2
        have h5 : b = now := h4
        rw [heq]
        apply List.mem_append_right
        rw [hts, ← h5]
        exact h2

theorem nodup_keys_stampMissing (ids : List String) :
    ∀ (pt : List (String × Int)) (now : Int),
      (pt.map Prod.fst).Nodup →
      ((stampMissing pt ids now).map Prod.fst).Nodup := by
  induction ids with
  | nil => intro pt now h; simpa [stampMissing] using h
  | cons vid ids ih =>
    intro pt now h
    by_cases hk : keysContain pt vid = true
    · rw [stampMissing, List.foldl_cons, if_pos hk]
      exact ih pt now h
    · rw [Bool.not_eq_true] at hk
      rw [stampMissing, List.foldl_cons, if_neg (by simp [hk])]
      apply ih
      rw [List.map_append]
      simp only [List.map_cons, List.map_nil]
      rw [List.nodup_append]
      refine ⟨h, List.nodup_singleton _, ?_⟩
      intro a ha hb
      simp only [List.mem_singleton] at hb
      rw [hb] at ha
      rw [keysContain_of_mem_keys pt vid ha] at hk
      simp at hk

theorem nodup_keys_value_eq {β : Type} (l : List (String × β))
    (h : (l.map Prod.fst).Nodup) (v : String) (a b : β)
    (ha : (v, a) ∈ l) (hb : (v, b) ∈ l) : a = b := by
  induction l with
  | nil => simp at ha
  | cons p rest ih =>
    simp only [List.map_cons, List.nodup_cons] at h
    rcases List.mem_cons.1 ha with ha1 | ha2
    · rcases List.mem_cons.1 hb with hb1 | hb2
      · rw [← ha1] at hb1
        injection hb1 with h1 h2
        exact h2.symm
      · exfalso
        apply h.1
        rw [← ha1]
        exact List.mem_map.2 ⟨(v, b), hb2, rfl⟩
    · rcases List.mem_cons.1 hb with hb1 | hb2
      · exfalso
        apply h.1
        rw [← hb1]
        exact List.mem_map.2 ⟨(v, a), ha2, rfl⟩
      · exact ih h.2 ha2 hb2

theorem load_state_live_mem (d : StateFile) (now max_age : Int) (v : String) :
    v ∈ (load_state (some d) now max_age).1 ↔
      ∃ ts, (v, ts) ∈ stampMissing d.processed_timestamps
          d.processed_video_ids now ∧
        now - max_age * 86400 < ts := by
  rw [load_state]
  simp only [List.mem_map, List.mem_filter]
  constructor
  · rintro ⟨⟨a, ts⟩, ⟨hm, hf⟩, he⟩
    cases he
    exact ⟨ts, hm, by simpa using hf⟩
  · rintro ⟨ts, hm, hlt⟩
    exact ⟨(v, ts), ⟨hm, by simpa using hlt⟩, rfl⟩

/-- Claim C6 counterexample: `save_state` keeps every key of the timestamp
map even when it is not in the live-id set, so `save` of live set `{}` with
timestamp map `{"a": 100}` followed by `load` yields live set `{"a"}`,
not the saved live set (minus expired ids, of which there are none here:
the timestamp 100 is newer than the cutoff `0 - 1*86400`). -/
theorem C6_roundtrip_counterexample :
    (load_state (some (save_state [] [] [("a", 100)] 0)) 0 1).1 = ["a"] ∧
    "a" ∉ ([] : List String) := by
  exact ⟨by decide, by decide⟩

/-- Claim C6 (amended): for every live-id set, error map and timestamp map
whose keys all lie in the live set (the invariant the program maintains),
`save` followed by `load` with `maxAgeDays` yields exactly the live ids
whose stored — or save-time backfilled — timestamp is strictly newer than
the load-time cutoff `now - maxAgeDays*86400`; every id whose timestamp is
at or below the cutoff is absent; and the error map round-trips
unchanged. -/
theorem C6_roundtrip (ids : List String) (errs : List (String × String))
    (pt : List (String × Int)) (now_s now_l max_age : Int)
    (hsub : ∀ p ∈ pt, p.1 ∈ ids) (hnd : (pt.map Prod.fst).Nodup) :
    (load_state (some (save_state ids errs pt now_s)) now_l max_age).2.1 = errs ∧
    (∀ v, v ∈ (load_state (some (save_state ids errs pt now_s)) now_l max_age).1 ↔
      (v ∈ ids ∧ ∃ ts, (v, ts) ∈ stampMissing pt ids now_s ∧
        now_l - max_age * 86400 < ts)) ∧
    (∀ v ts, (v, ts) ∈ stampMissing pt ids now_s →
      ts ≤ now_l - max_age * 86400 →
      v ∉ (load_state (some (save_state ids errs pt now_s)) now_l max_age).1) := by
  have hfile : (save_state ids errs pt now_s).processed_timestamps =
      stampMissing pt ids now_s := rfl
  have hleg : (save_state ids errs pt now_s).processed_video_ids = [] := rfl
  have hlive : ∀ v, v ∈ (load_state (some (save_state ids errs pt now_s))
      now_l max_age).1 ↔
      ∃ ts, (v, ts) ∈ stampMissing pt ids now_s ∧
        now_l - max_age * 86400 < ts := by
    intro v
    rw [load_state_live_mem, hfile, hleg]
    rfl
  refine ⟨rfl, ?_, ?_⟩
  · intro v
    rw [hlive]
    constructor
    · rintro ⟨ts, hm, hlt⟩
      rcases (mem_stampMissing pt ids now_s v ts).1 hm with h1 | ⟨_, h2, _⟩
      · exact ⟨hsub _ h1, ts, hm, hlt⟩
      · exact ⟨h2, ts, hm, hlt⟩
    · rintro ⟨_, ts, hm, hlt⟩
      exact ⟨ts, hm, hlt⟩
  · intro v ts hm hle hmem
    obtain ⟨ts', hm', hlt⟩ := (hlive v).1 hmem
    have := nodup_keys_value_eq _ (nodup_keys_stampMissing ids pt now_s hnd)
      v ts ts' hm hm'
    omega

theorem C6_roundtrip_witness :
    (load_state (some (save_state ["a", "b"] [("x", "TranscriptsDisabled")]
        [("a", 5)] 10)) 20 1).2.1 = [("x", "TranscriptsDisabled")] ∧
    "b" ∈ (load_state (some (save_state ["a", "b"] [("x", "TranscriptsDisabled")]
        [("a", 5)] 10)) 20 1).1 := by
  obtain ⟨h1, h2, _⟩ := C6_roundtrip ["a", "b"] [("x", "TranscriptsDisabled")]
    [("a", 5)] 10 20 1 (by decide) (by decide)
  exact ⟨h1, (h2 "b").2 ⟨by decide, 10, by decide, by decide⟩⟩

/-- Claim C7 counterexample: an id whose timestamp exactly equals the cutoff
`now - maxAgeDays*86400` is dropped by the pruning pass (the filter at
lines 169-172 keeps only `ts > cutoff_time`), whereas the claim says it is
"not older" and retained: with `now = 14*86400`, `maxAgeDays = 14` the
cutoff is 0 and the id "a" with timestamp 0 is absent after load. -/
theorem C7_boundary_counterexample :
    "a" ∉ (load_state (some (StateFile.mk [("a", 0)] [] []))
        (14 * 86400) 14).1 ∧
    (load_state (some (StateFile.mk [("a", 0)] [] [])) (14 * 86400) 14).2.1
      = [] := by
  exact ⟨by decide, rfl⟩

/-- Claim C7 (amended): on load, exactly those ids whose (migrated)
timestamp is strictly newer than `now - maxAgeDays*86400` are retained in
the live set — an id whose timestamp is at or below the cutoff, including
one exactly at the cutoff, is dropped — and the error map is returned
unchanged by this pruning pass regardless of its entries' ages. -/
theorem C7_prune (d : StateFile) (now max_age : Int)
    (hnd : ((stampMissing d.processed_timestamps
      d.processed_video_ids now).map Prod.fst).Nodup) :
    (load_state (some d) now max_age).2.1 = d.video_errors ∧
    ∀ v ts, (v, ts) ∈ stampMissing d.processed_timestamps
        d.processed_video_ids now →
      (v ∈ (load_state (some d) now max_age).1 ↔
        now - max_age * 86400 < ts) := by
  refine ⟨rfl, ?_⟩
  intro v ts hm
  rw [load_state_live_mem]
  constructor
  · rintro ⟨ts', hm', hlt⟩
    have := nodup_keys_value_eq _ hnd v ts' ts hm' hm
    omega
  · intro hlt
    exact ⟨ts, hm, hlt⟩

theorem C7_prune_witness :
    (load_state (some (StateFile.mk [("a", 50), ("b", 0)] []
        [("old", "NoTranscriptFound")])) 86450 1).2.1
      = [("old", "NoTranscriptFound")] ∧
    ("a" ∈ (load_state (some (StateFile.mk [("a", 50), ("b", 0)] []
        [("old", "NoTranscriptFound")])) 86450 1).1 ↔ (86450 - 1 * 86400 : Int) < 50) := by
  obtain ⟨h1, h2⟩ := C7_prune
    (StateFile.mk [("a", 50), ("b", 0)] [] [("old", "NoTranscriptFound")])
    86450 1 (by decide)
  exact ⟨h1, h2 "a" 50 (by decide)⟩

/-- Claim C8 counterexample: with `maxAgeDays = 0` (cutoff = `now`), the
load-time stamp `now` of a migrated legacy id is not strictly greater than
the cutoff, so a state file containing only the legacy list `["a"]` loads
to an empty live set, not to `{"a"}`. -/
theorem C8_maxage_counterexample :
    "a" ∈ (StateFile.mk [] ["a"] []).processed_video_ids ∧
    "a" ∉ (load_state (some (StateFile.mk [] ["a"] [])) 0 0).1 := by
  exact ⟨by decide, by decide⟩

/-- Claim C8 (amended): for every state file containing only the legacy
unordered-list field, provided `maxAgeDays` is positive, load yields a
live-id set equal to that list with every listed id stamped with the
load-time timestamp; and the migration is idempotent: an id already present
in the timestamped map keeps its existing timestamp — it is never
restamped by a later load. -/
theorem C8_legacy_migration (L : List String) (now max_age : Int)
    (hpos : 0 < max_age) :
    (∀ v, v ∈ (load_state (some (StateFile.mk [] L [])) now max_age).1 ↔
      v ∈ L) ∧
    (∀ v ∈ L, (v, now) ∈
      (load_state (some (StateFile.mk [] L [])) now max_age).2.2) ∧
    (∀ (pt : List (String × Int)) (ids : List String) (now2 : Int)
        (v : String) (ts ts2 : Int),
      (pt.map Prod.fst).Nodup → (v, ts) ∈ pt →
      (v, ts2) ∈ stampMissing pt ids now2 → ts2 = ts) := by
  have hstamp : ∀ v ts, (v, ts) ∈ stampMissing ([] : List (String × Int)) L now ↔
      ts = now ∧ v ∈ L := by
    intro v ts
    rw [mem_stampMissing]
    simp [keysContain]
  refine ⟨?_, ?_, ?_⟩
  · intro v
    rw [load_state_live_mem]
    constructor
    · rintro ⟨ts, hm, _⟩
      exact ((hstamp v ts).1 hm).2
    · intro hv
      exact ⟨now, (hstamp v now).2 ⟨rfl, hv⟩, by omega⟩
  · intro v hv
    show (v, now) ∈ (stampMissing ([] : List (String × Int)) L now).filter _
    refine List.mem_filter.2 ⟨(hstamp v now).2 ⟨rfl, hv⟩, ?_⟩
    simp only [decide_eq_true_eq]
    omega
  · intro pt ids now2 v ts ts2 hnd hmem hmem2
    rcases (mem_stampMissing pt ids now2 v ts2).1 hmem2 with h1 | ⟨_, _, hkc⟩
    · exact nodup_keys_value_eq _ hnd v ts2 ts h1 hmem
    · exact absurd ((keysContain_iff _ _).2 ⟨ts, hmem⟩) (by simp [hkc])

theorem C8_legacy_migration_witness :
    ("a" ∈ (load_state (some (StateFile.mk [] ["a", "b"] [])) 100 14).1 ↔
      "a" ∈ ["a", "b"]) ∧
    ("a", (100 : Int)) ∈
      (load_state (some (StateFile.mk [] ["a", "b"] [])) 100 14).2.2 ∧
    ∀ ts2 : Int, ("c", ts2) ∈ stampMissing [("c", (7 : Int))] ["c", "d"] 999 →
      ts2 = 7 := by
  obtain ⟨h1, h2, h3⟩ := C8_legacy_migration ["a", "b"] 100 14 (by decide)
  exact ⟨h1 "a", h2 "a" (by decide),
    fun ts2 hm => h3 [("c", 7)] ["c", "d"] 999 "c" 7 ts2 (by decide) (by decide) hm⟩

/- ------------------------------------------------------------------
   Transcript resolution chain: `fetch_transcript_any_lang`
   (lines 741-824), and the portion of `main` that filters candidates
   (lines 1066-1084), runs the per-item loop (lines 1125-1165) and saves
   state (lines 1167-1168).

   Each transcript-API stage (A: preferred languages, line 762; B: any
   language, line 788) is modelled by its observable outcome: a fetched
   snippet list with a language code, an `IpBlocked` exception, or some
   other raised exception identified by its type name.  The yt-dlp
   fallback (stage C) is an optional already-extracted text.
   ------------------------------------------------------------------ -/

inductive StageOutcome where
  | fetched (snippets : List String) (lang : String)
  | ipBlocked
  | raised (tag : String)
deriving DecidableEq, Repr

/-- What one call of `fetch_transcript_any_lang` does, observably:
return a transcript (`found`), return `None` (`notFound`), re-raise a
terminal transcript exception (`terminal`), or `sys.exit(1)` on
`IpBlocked` (`exitBlocked`). -/
inductive FetchResult where
  | found (text : String)
  | notFound
  | terminal (tag : String)
  | exitBlocked
deriving DecidableEq, Repr

/-- `" ".join(snippet.text.strip() for snippet in snippets if
snippet.text.strip())` (lines 767, 792). -/
def joinSnippets (snippets : List String) : String :=
  String.intercalate " "
    ((snippets.map String.trim).filter (fun t => t ≠ ""))

/-- The exception types re-raised by stage B (line 807). -/
def terminalTags : List String :=
  ["TranscriptsDisabled", "NoTranscriptFound", "CouldNotRetrieveTranscript"]

/-- Stage C: the yt-dlp fallback and the final `return None`
(lines 813-824). -/
def stageCPart (ytdlp : Option String) : FetchResult :=
  match ytdlp with
  | some t => FetchResult.found t
  | none => FetchResult.notFound

/-- Stage B: `api.fetch(video_id)` with its exception handling
(lines 785-811): `IpBlocked` exits, the three terminal exception types are
re-raised, any other exception only records a reason and falls through to
stage C; a fetched transcript is returned when its joined text is
non-empty. -/
def stageBPart (stageB : StageOutcome) (ytdlp : Option String) : FetchResult :=
  match stageB with
  | .ipBlocked => FetchResult.exitBlocked
  | .fetched snippets _ =>
    if snippets ≠ [] ∧ joinSnippets snippets ≠ "" then
      FetchResult.found (joinSnippets snippets)
    else stageCPart ytdlp
  | .raised tag =>
    if terminalTags.contains tag then FetchResult.terminal tag
    else stageCPart ytdlp

/-- `fetch_transcript_any_lang` (lines 741-824).  Stage A
(`api.fetch(video_id, languages=pref_langs)`, lines 761-783): `IpBlocked`
exits the process; every other exception — including the terminal types —
is swallowed by the generic handler at line 782 and control falls through
to stage B; a fetched transcript is returned when non-empty. -/
def fetch_transcript_any_lang (stageA stageB : StageOutcome)
    (ytdlp : Option String) : FetchResult :=
  match stageA with
  | .ipBlocked => FetchResult.exitBlocked
  | .fetched snippets _ =>
    if snippets ≠ [] ∧ joinSnippets snippets ≠ "" then
      FetchResult.found (joinSnippets snippets)
    else stageBPart stageB ytdlp
  | .raised _ => stageBPart stageB ytdlp

/-- Python set-add on the insertion-ordered id list. -/
def addId (l : List String) (vid : String) : List String :=
  if l.contains vid then l else l ++ [vid]

/-- Python dict assignment `d[k] = b`: update in place, or append. -/
def setKey {β : Type} (l : List (String × β)) (k : String) (b : β) :
    List (String × β) :=
  if keysContain l k then l.map (fun p => if p.1 == k then (p.1, b) else p)
  else l ++ [(k, b)]

/-- The in-memory state threaded through the per-item loop of `main`:
the processed-id set, the error dict, the saved-file counter, and — as the
embedding's event log — the list of ids the transcript resolution chain
was invoked for (in order). -/
structure LoopState where
  processed_ids : List String
  video_errors : List (String × String)
  saved : Nat
  fetched : List String
deriving DecidableEq, Repr

/-- One iteration of the loop at lines 1127-1165, for the candidate `v`.
`fetch` gives the outcome of `fetch_transcript_any_lang` per video id;
`ok vid` tells whether the summarize-and-render `try` block (lines
1151-1163) succeeds.  Returns the new state and whether `sys.exit`
propagated (terminating the whole run with nothing afterwards). -/
def processOne (fetch : String → FetchResult) (ok : String → Bool)
    (mark_no_transcript skip_state : Bool) (st : LoopState) (v : Video) :
    LoopState × Bool :=
  let vid := v.videoId
  let st1 : LoopState := { st with fetched := st.fetched ++ [vid] }
  match fetch vid with
  | .exitBlocked => (st1, true)
  | .terminal tag =>
    ({ st1 with video_errors := setKey st1.video_errors vid tag }, false)
  | .notFound =>
    if mark_no_transcript && !skip_state then
      ({ st1 with processed_ids := addId st1.processed_ids vid }, false)
    else (st1, false)
  | .found _ =>
    if ok vid then
      if !skip_state then
        ({ st1 with saved := st1.saved + 1, processed_ids := addId st1.processed_ids vid }, false)
      else ({ st1 with saved := st1.saved + 1 }, false)
    else (st1, false)

/-- The whole per-item loop; `Except.error` carries the state at the moment
a `sys.exit` propagated out of the loop. -/
def processLoop (fetch : String → FetchResult) (ok : String → Bool)
    (mark_no_transcript skip_state : Bool) :
    LoopState → List Video → Except LoopState LoopState
  | st, [] => Except.ok st
  | st, v :: rest =>
    let r := processOne fetch ok mark_no_transcript skip_state st v
    if r.2 then Except.error r.1
    else processLoop fetch ok mark_no_transcript skip_state r.1 rest

/-- The unwatched-proxy filter of `main` (lines 1066-1084): drop candidates
already processed, candidates with a recorded error, and — when the
Takeout set is non-empty — candidates in the watch history. -/
def filterCandidates (processed_ids : List String)
    (video_errors : List (String × String)) (takeout_ids : List String)
    (candidates : List Video) : List Video :=
  candidates.filter (fun v =>
    !(processed_ids.contains v.videoId) &&
      !(keysContain video_errors v.videoId) &&
      !(!takeout_ids.isEmpty && takeout_ids.contains v.videoId))

/-- Outcome of the modelled slice of `main`: normal completion with the
final loop state and the state file written by `save_state` (lines
1167-1168; `none` when `--skip-state`), or process exit with a nonzero
code, on which nothing is persisted. -/
inductive RunOutcome where
  | completed (st : LoopState) (persisted : Option StateFile)
  | exited (code : Nat) (st : LoopState)
deriving DecidableEq, Repr

def persistedOf : RunOutcome → Option StateFile
  | .completed _ p => p
  | .exited _ _ => none

def finalState : RunOutcome → LoopState
  | .completed st _ => st
  | .exited _ st => st

/-- The candidate-filtering, per-item processing and state-saving slice of
`main` (lines 1066-1168).  The sort/global-cap stage between the filter and
the loop (lines 1087-1089) only permutes and drops candidates and is not
needed by any claim, so the filtered list feeds the loop directly. -/
def run_main (fetch : String → FetchResult) (ok : String → Bool)
    (mark_no_transcript skip_state : Bool) (processed0 : List String)
    (errs0 : List (String × String)) (takeout : List String)
    (candidates : List Video) (pt0 : List (String × Int)) (now : Int) :
    RunOutcome :=
  let selected := filterCandidates processed0 errs0 takeout candidates
  match processLoop fetch ok mark_no_transcript skip_state
      ⟨processed0, errs0, 0, []⟩ selected with
  | .error st => RunOutcome.exited 1 st
  | .ok st =>
    RunOutcome.completed st
      (if skip_state then none
       else some (save_state st.processed_ids st.video_errors pt0 now))

def exceptState : Except LoopState LoopState → LoopState
  | .ok st => st
  | .error st => st

theorem keysContain_mem_keys {β : Type} (l : List (String × β)) (x : String) :
    keysContain l x = true ↔ x ∈ l.map Prod.fst := by
  rw [keysContain_iff]
  constructor
  · rintro ⟨b, hb⟩
    exact List.mem_map.2 ⟨(x, b), hb, rfl⟩
  · intro h
    obtain ⟨p, hm, he⟩ := List.mem_map.1 h
    obtain ⟨a, c⟩ := p
    cases he
    exact ⟨c, hm⟩

theorem setKey_keys {β : Type} (l : List (String × β)) (k : String) (b : β)
    (x : String) :
    keysContain (setKey l k b) x = true ↔ keysContain l x = true ∨ x = k := by
  rw [setKey]
  by_cases hc : keysContain l k = true
  · rw [if_pos hc]
    have hkeys : (l.map (fun p => if p.1 == k then (p.1, b) else p)).map
        Prod.fst = l.map Prod.fst := by
      rw [List.map_map]
      apply List.map_congr_left
      intro p _
      simp only [Function.comp_apply]
      split <;> rfl
    rw [keysContain_mem_keys, hkeys, ← keysContain_mem_keys]
    constructor
    · exact Or.inl
    · rintro (h | rfl)
      · exact h
      · exact hc
  · rw [if_neg hc, keysContain, List.any_append, Bool.or_eq_true]
    rw [show (List.any l fun p => p.1 == x) = keysContain l x from rfl]
    constructor
    · rintro (h | h)
      · exact Or.inl h
      · simp only [List.any_cons, List.any_nil, Bool.or_false,
          beq_iff_eq] at h
        exact Or.inr h.symm
    · rintro (h | rfl)
      · exact Or.inl h
      · exact Or.inr (by simp)

theorem processOne_fetched (fetch : String → FetchResult) (ok : String → Bool)
    (mark skip : Bool) (st : LoopState) (v : Video) :
    (processOne fetch ok mark skip st v).1.fetched =
      st.fetched ++ [v.videoId] := by
  cases hf : fetch v.videoId <;>
    simp only [processOne, hf] <;> split_ifs <;> rfl

theorem processOne_not_exit (fetch : String → FetchResult) (ok : String → Bool)
    (mark skip : Bool) (st : LoopState) (v : Video)
    (h : fetch v.videoId ≠ FetchResult.exitBlocked) :
    (processOne fetch ok mark skip st v).2 = false := by
  cases hf : fetch v.videoId <;> simp only [processOne, hf] <;>
    first
      | (exact absurd hf h)
      | (split_ifs <;> rfl)

theorem processOne_errkey_mono (fetch : String → FetchResult)
    (ok : String → Bool) (mark skip : Bool) (st : LoopState) (v : Video)
    (x : String) (h : keysContain st.video_errors x = true) :
    keysContain (processOne fetch ok mark skip st v).1.video_errors x
      = true := by
  cases hf : fetch v.videoId <;> simp only [processOne, hf]
  · split_ifs <;> exact h
  · split_ifs <;> exact h
  · exact (setKey_keys _ _ _ _).2 (Or.inl h)
  · exact h

theorem processLoop_errkey_mono (fetch : String → FetchResult)
    (ok : String → Bool) (mark skip : Bool) :
    ∀ (vs : List Video) (st : LoopState) (x : String),
      keysContain st.video_errors x = true →
      keysContain (exceptState
        (processLoop fetch ok mark skip st vs)).video_errors x = true := by
  intro vs
  induction vs with
  | nil => intro st x h; exact h
  | cons v rest ih =>
    intro st x h
    rw [processLoop]
    by_cases he : (processOne fetch ok mark skip st v).2 = true
    · rw [if_pos he]
      exact processOne_errkey_mono fetch ok mark skip st v x h
    · rw [if_neg he]
      exact ih _ x (processOne_errkey_mono fetch ok mark skip st v x h)

theorem processLoop_fetched_subset (fetch : String → FetchResult)
    (ok : String → Bool) (mark skip : Bool) :
    ∀ (vs : List Video) (st : LoopState) (x : String),
      x ∈ (exceptState (processLoop fetch ok mark skip st vs)).fetched →
      x ∈ st.fetched ∨ x ∈ vs.map (fun v => v.videoId) := by
  intro vs
  induction vs with
  | nil => intro st x h; exact Or.inl h
  | cons v rest ih =>
    intro st x h
    rw [processLoop] at h
    by_cases he : (processOne fetch ok mark skip st v).2 = true
    · rw [if_pos he] at h
      simp only [exceptState] at h
      rw [processOne_fetched] at h
      rcases List.mem_append.1 h with h1 | h2
      · exact Or.inl h1
      · simp only [List.mem_singleton] at h2
        exact Or.inr (by simp [h2])
    · rw [if_neg he] at h
      rcases ih _ x h with h1 | h2
      · rw [processOne_fetched] at h1
        rcases List.mem_append.1 h1 with h3 | h4
        · exact Or.inl h3
        · simp only [List.mem_singleton] at h4
          exact Or.inr (by simp [h4])
      · exact Or.inr (by simp [h2])

theorem processLoop_records (fetch : String → FetchResult) (ok : String → Bool)
    (mark skip : Bool) :
    ∀ (vs : List Video) (st : LoopState) (v : Video) (tag : String),
      v ∈ vs → fetch v.videoId = FetchResult.terminal tag →
      ∀ st2, processLoop fetch ok mark skip st vs = Except.ok st2 →
        keysContain st2.video_errors v.videoId = true := by
  intro vs
  induction vs with
  | nil => intro st v tag hv; simp at hv
  | cons w rest ih =>
    intro st v tag hv hft st2 hloop
    rw [processLoop] at hloop
    by_cases he : (processOne fetch ok mark skip st w).2 = true
    · rw [if_pos he] at hloop
      exact absurd hloop (by simp)
    · rw [if_neg he] at hloop
      rcases List.mem_cons.1 hv with rfl | hv2
      · have hk : keysContain
            (processOne fetch ok mark skip st v).1.video_errors
            v.videoId = true := by
          simp only [processOne, hft]
          exact (setKey_keys _ _ _ _).2 (Or.inr rfl)
        have hmono := processLoop_errkey_mono fetch ok mark skip rest _ _ hk
        rw [hloop] at hmono
        simpa [exceptState] using hmono
      · exact ih _ v tag hv2 hft st2 hloop

theorem processLoop_exit_at (fetch : String → FetchResult) (ok : String → Bool)
    (mark skip : Bool) (v : Video) (post : List Video)
    (hv : fetch v.videoId = FetchResult.exitBlocked) :
    ∀ (pre : List Video) (st : LoopState),
      (∀ w ∈ pre, fetch w.videoId ≠ FetchResult.exitBlocked) →
      ∃ st2, processLoop fetch ok mark skip st (pre ++ v :: post) =
          Except.error st2 ∧
        st2.fetched = st.fetched ++ pre.map (fun w => w.videoId)
          ++ [v.videoId] := by
  intro pre
  induction pre with
  | nil =>
    intro st _
    refine ⟨(processOne fetch ok mark skip st v).1, ?_, ?_⟩
    · rw [List.nil_append, processLoop,
        if_pos (by simp [processOne, hv] : (processOne fetch ok mark skip st v).2 = true)]
    · rw [processOne_fetched]
      simp
  | cons w pre2 ih =>
    intro st hpre
    have hne : (processOne fetch ok mark skip st w).2 = false :=
      processOne_not_exit fetch ok mark skip st w
        (hpre w (List.mem_cons_self _ _))
    obtain ⟨st2, hloop, hf⟩ := ih (processOne fetch ok mark skip st w).1
      (fun u hu => hpre u (List.mem_cons_of_mem _ hu))
    refine ⟨st2, ?_, ?_⟩
    · rw [List.cons_append, processLoop, if_neg (by simp [hne])]
      exact hloop
    · rw [hf, processOne_fetched]
      simp

theorem run_main_finalState (fetch : String → FetchResult) (ok : String → Bool)
    (mark skip : Bool) (processed0 : List String)
    (errs0 : List (String × String)) (takeout : List String)
    (candidates : List Video) (pt0 : List (String × Int)) (now : Int) :
    finalState (run_main fetch ok mark skip processed0 errs0 takeout
        candidates pt0 now) =
      exceptState (processLoop fetch ok mark skip ⟨processed0, errs0, 0, []⟩
        (filterCandidates processed0 errs0 takeout candidates)) := by
  rw [run_main]
  cases hl : processLoop fetch ok mark skip ⟨processed0, errs0, 0, []⟩
      (filterCandidates processed0 errs0 takeout candidates) <;>
    simp [finalState, exceptState]

theorem filterCandidates_no_errored (processed0 : List String)
    (errs0 : List (String × String)) (takeout : List String)
    (candidates : List Video) (v : Video)
    (hv : v ∈ filterCandidates processed0 errs0 takeout candidates) :
    keysContain errs0 v.videoId = false := by
  have h := (List.mem_filter.1 hv).2
  simp only [Bool.and_eq_true, Bool.not_eq_true'] at h
  exact h.1.2

/-- Claim C4: an item whose transcript resolution raises a terminal failure
is recorded in the error map with its failure tag by the end of a completed
run (conjunct 1); the error map is persisted verbatim by `save_state` and
returned unchanged by any later `load_state` (conjunct 2); every candidate
whose id is in the error map is removed by the filter stage (conjunct 3);
and in any run, an id present in the incoming error map is never passed to
the transcript resolution chain — it does not occur in the loop's
fetch-invocation log (conjunct 4). -/
theorem C4_terminal_error_persistence (fetch : String → FetchResult)
    (ok : String → Bool) (mark skip : Bool) (processed0 : List String)
    (errs0 : List (String × String)) (takeout : List String)
    (candidates : List Video) (pt0 : List (String × Int)) (now : Int) :
    (∀ st2 p, run_main fetch ok mark skip processed0 errs0 takeout candidates
        pt0 now = RunOutcome.completed st2 p →
      ∀ v ∈ filterCandidates processed0 errs0 takeout candidates, ∀ tag,
        fetch v.videoId = FetchResult.terminal tag →
        keysContain st2.video_errors v.videoId = true) ∧
    (∀ st2 file, run_main fetch ok mark skip processed0 errs0 takeout
        candidates pt0 now = RunOutcome.completed st2 (some file) →
      file.video_errors = st2.video_errors ∧
      ∀ now2 age2, (load_state (some file) now2 age2).2.1
        = st2.video_errors) ∧
    (∀ v ∈ candidates, keysContain errs0 v.videoId = true →
      v ∉ filterCandidates processed0 errs0 takeout candidates) ∧
    (∀ x, keysContain errs0 x = true →
      x ∉ (finalState (run_main fetch ok mark skip processed0 errs0 takeout
        candidates pt0 now)).fetched) := by
  refine ⟨?_, ?_, ?_, ?_⟩
  · intro st2 p hrun v hv tag hft
    rw [run_main] at hrun
    cases hl : processLoop fetch ok mark skip ⟨processed0, errs0, 0, []⟩
        (filterCandidates processed0 errs0 takeout candidates) with
    | error st3 =>
      rw [hl] at hrun
      exact absurd hrun (by simp)
    | ok st3 =>
      rw [hl] at hrun
      simp only [RunOutcome.completed.injEq] at hrun
      obtain ⟨rfl, -⟩ := hrun
      exact processLoop_records fetch ok mark skip _ _ v tag hv hft st3 hl
  · intro st2 file hrun
    rw [run_main] at hrun
    cases hl : processLoop fetch ok mark skip ⟨processed0, errs0, 0, []⟩
        (filterCandidates processed0 errs0 takeout candidates) with
    | error st3 =>
      rw [hl] at hrun
      exact absurd hrun (by simp)
    | ok st3 =>
      rw [hl] at hrun
      simp only [RunOutcome.completed.injEq] at hrun
      obtain ⟨rfl, hp⟩ := hrun
      by_cases hsk : skip
      · rw [if_pos hsk] at hp
        exact absurd hp (by simp)
      · rw [if_neg hsk] at hp
        have hfile : file = save_state st3.processed_ids st3.video_errors
            pt0 now := by
          injection hp with h
          exact h.symm
        subst hfile
        exact ⟨rfl, fun now2 age2 => rfl⟩
  · intro v _ hk hmem
    rw [filterCandidates_no_errored processed0 errs0 takeout candidates v hmem]
      at hk
    exact absurd hk (by simp)
  · intro x hk hmem
    rw [run_main_finalState] at hmem
    rcases processLoop_fetched_subset fetch ok mark skip
        (filterCandidates processed0 errs0 takeout candidates)
        ⟨processed0, errs0, 0, []⟩ x hmem with h1 | h2
    · simp at h1
    · obtain ⟨v, hv, he⟩ := List.mem_map.1 h2
      rw [← he] at hk
      rw [filterCandidates_no_errored processed0 errs0 takeout candidates
        v hv] at hk
      exact absurd hk (by simp)

theorem C4_terminal_error_persistence_witness :
    keysContain [("e", "NoTranscriptFound"), ("a", "TranscriptsDisabled")]
      "a" = true ∧
    "e" ∉ (finalState (run_main
      (fun _ => FetchResult.terminal "TranscriptsDisabled") (fun _ => true)
      false false [] [("e", "NoTranscriptFound")] [] [Video.mk "a" none]
      [] 5)).fetched := by
  obtain ⟨h1, _, _, h4⟩ := C4_terminal_error_persistence
    (fun _ => FetchResult.terminal "TranscriptsDisabled") (fun _ => true)
    false false [] [("e", "NoTranscriptFound")] [] [Video.mk "a" none] [] 5
  refine ⟨?_, h4 "e" (by decide)⟩
  have := h1
    (LoopState.mk []
      [("e", "NoTranscriptFound"), ("a", "TranscriptsDisabled")] 0 ["a"])
    (some (StateFile.mk [] []
      [("e", "NoTranscriptFound"), ("a", "TranscriptsDisabled")]))
    (by decide) (Video.mk "a" none) (by decide) "TranscriptsDisabled" rfl
  exact this

/-- Claim C5: the access-blocked condition (`IpBlocked`) terminates the
whole run: it exits the process with code 1 whether it occurs in stage A or
in stage B of the transcript resolution chain (conjuncts 1-2); and when the
per-item loop hits a blocked item, the run ends as `exited 1` right there —
no state file is persisted, and no later candidate has the resolution chain
invoked for it (the fetch log stops exactly at the blocked item). -/
theorem C5_access_blocked (fetch : String → FetchResult) (ok : String → Bool)
    (mark skip : Bool) (processed0 : List String)
    (errs0 : List (String × String)) (takeout : List String)
    (candidates : List Video) (pt0 : List (String × Int)) (now : Int)
    (pre post : List Video) (v : Video)
    (hsel : filterCandidates processed0 errs0 takeout candidates =
      pre ++ v :: post)
    (hpre : ∀ w ∈ pre, fetch w.videoId ≠ FetchResult.exitBlocked)
    (hv : fetch v.videoId = FetchResult.exitBlocked) :
    (∀ (sB : StageOutcome) (y : Option String),
      fetch_transcript_any_lang StageOutcome.ipBlocked sB y =
        FetchResult.exitBlocked) ∧
    (∀ (tag : String) (y : Option String),
      fetch_transcript_any_lang (StageOutcome.raised tag)
        StageOutcome.ipBlocked y = FetchResult.exitBlocked) ∧
    (∃ st2, run_main fetch ok mark skip processed0 errs0 takeout candidates
        pt0 now = RunOutcome.exited 1 st2 ∧
      persistedOf (run_main fetch ok mark skip processed0 errs0 takeout
        candidates pt0 now) = none ∧
      st2.fetched = pre.map (fun w => w.videoId) ++ [v.videoId]) := by
  refine ⟨fun sB y => rfl, fun tag y => rfl, ?_⟩
  obtain ⟨st2, hloop, hf⟩ := processLoop_exit_at fetch ok mark skip v post hv
    pre ⟨processed0, errs0, 0, []⟩ hpre
  have hrun : run_main fetch ok mark skip processed0 errs0 takeout candidates
      pt0 now = RunOutcome.exited 1 st2 := by
    rw [run_main]
    rw [hsel, hloop]
  refine ⟨st2, hrun, ?_, ?_⟩
  · rw [hrun]
    rfl
  · rw [hf]
    simp

theorem C5_access_blocked_witness :
    persistedOf (run_main (fun _ => FetchResult.exitBlocked) (fun _ => true)
      false false [] [] [] [Video.mk "b" none] [] 0) = none ∧
    fetch_transcript_any_lang StageOutcome.ipBlocked
      (StageOutcome.fetched [] "en") none = FetchResult.exitBlocked := by
  obtain ⟨h1, _, _, _, hpers, _⟩ := C5_access_blocked
    (fun _ => FetchResult.exitBlocked) (fun _ => true) false false [] [] []
    [Video.mk "b" none] [] 0 [] [] (Video.mk "b" none) (by decide)
    (fun w hw => absurd hw (List.not_mem_nil w)) rfl
  exact ⟨hpers, h1 (StageOutcome.fetched [] "en") none⟩

/-- Claim C9: in the per-item loop, when a transcript was found, the item's
id is added to the processed set only if the summarize-and-render block
succeeds (conjunct 2: any change to the processed set implies success and
that `--skip-state` is off); if the block raises, the processed set is
unchanged and the batch continues (conjunct 1); on success with state
updates enabled, the id is added (conjunct 3). -/
theorem C9_processed_after_success (fetch : String → FetchResult)
    (ok : String → Bool) (mark skip : Bool) (st : LoopState) (v : Video)
    (text : String) (hfound : fetch v.videoId = FetchResult.found text) :
    (ok v.videoId = false →
      (processOne fetch ok mark skip st v).1.processed_ids =
        st.processed_ids ∧
      (processOne fetch ok mark skip st v).2 = false) ∧
    ((processOne fetch ok mark skip st v).1.processed_ids ≠
        st.processed_ids →
      ok v.videoId = true ∧ skip = false) ∧
    (ok v.videoId = true → skip = false →
      (processOne fetch ok mark skip st v).1.processed_ids =
        addId st.processed_ids v.videoId ∧
      (processOne fetch ok mark skip st v).2 = false) := by
  refine ⟨?_, ?_, ?_⟩
  · intro hok
    simp [processOne, hfound, hok]
  · intro hne
    by_cases hok : ok v.videoId = true
    · by_cases hsk : skip = true
      · exfalso
        apply hne
        simp [processOne, hfound, hok, hsk]
      · exact ⟨hok, by simpa using hsk⟩
    · exfalso
      apply hne
      simp [processOne, hfound, hok]
  · intro hok hsk
    simp [processOne, hfound, hok, hsk]

theorem C9_processed_after_success_witness :
    (processOne (fun _ => FetchResult.found "t") (fun _ => false) false false
      (LoopState.mk ["p"] [] 0 []) (Video.mk "a" none)).1.processed_ids =
      ["p"] ∧
    (processOne (fun _ => FetchResult.found "t") (fun _ => true) false false
      (LoopState.mk ["p"] [] 0 []) (Video.mk "a" none)).1.processed_ids =
      addId ["p"] "a" := by
  obtain ⟨h1, -, -⟩ := C9_processed_after_success
    (fun _ => FetchResult.found "t") (fun _ => false) false false
    (LoopState.mk ["p"] [] 0 []) (Video.mk "a" none) "t" rfl
  obtain ⟨-, -, h3⟩ := C9_processed_after_success
    (fun _ => FetchResult.found "t") (fun _ => true) false false
    (LoopState.mk ["p"] [] 0 []) (Video.mk "a" none) "t" rfl
  exact ⟨(h1 rfl).1, (h3 rfl rfl).1⟩
